import Mathlib

/-!
Verification development for the iptv-sources discovery/speed-test pipeline.

The definitions below are a shallow embedding of the Python source:
* `test_stream_speed`, `test_with_other_configs`, `run_speed_tests`,
  `append_result_immediately`, `generate_results` embed
  `src/udpxy/speedtest_integrated_new.py` (class `IPTVSpeedTest`);
* `search_fofa_api_pages` embeds the pagination of `search_fofa_api`;
* `deduplicate_data` (with `stageA`/`stageB`) embeds
  `src/Hotels/makecsv.py` (class `MakeCSV.deduplicate_data`).

Machine reals of the source (`time.time()` differences, byte counts) are
modelled as exact rationals / naturals; network I/O is modelled by a
deterministic oracle `NetOracle` giving, for each `(candidate, config)`
pair, the outcome of the streaming download the code would observe.
-/

/-- A `(carrier, region) -> (city, streamPath)` catalog entry, as produced by
`_load_all_province_configs` (a dict with keys `isp`, `region`, `city`,
`stream`). -/
structure Config where
  isp : String
  region : String
  city : String
  stream : String
deriving DecidableEq, Repr

/-- Observable outcome of one streaming HTTP GET issued by
`test_stream_speed`: whether a transport-level exception was raised, the
HTTP status code, the total bytes accumulated by the chunk loop, and the
elapsed wall-clock seconds (`end_time - start_time`). -/
structure DownloadOutcome where
  error : Bool
  status : Nat
  bytes : Nat
  duration : ℚ
deriving DecidableEq, Repr

/-- The dict returned by `test_stream_speed` on success:
`{'ip': ip_port, 'speed': ..., 'file_size': ..., 'duration': ..., 'config': ...}`
(the `config` key is present exactly when a custom config was passed in). -/
structure StreamResult where
  ip : String
  speed : ℚ
  file_size : Nat
  duration : ℚ
  config? : Option Config
deriving DecidableEq, Repr

/-- Embedding of `IPTVSpeedTest.test_stream_speed` (lines 1912-2075).
Guards, in source order: any transport exception returns `None`;
a non-200 status returns `None`; `total_duration <= 0`, `total_size == 0`
and `total_size < 1024` return `None`; then
`speed = total_size / total_duration / 1024 / 1024`, and `speed < 0.05` or
`speed > 1000` return `None`; otherwise the measurement dict is returned. -/
def test_stream_speed (ip_port : String) (custom_config : Option Config)
    (d : DownloadOutcome) : Option StreamResult :=
  if d.error then none
  else if d.status ≠ 200 then none
  else if d.duration ≤ 0 then none
  else if d.bytes = 0 then none
  else if d.bytes < 1024 then none
  else if (d.bytes : ℚ) / d.duration / 1024 / 1024 < (0.05 : ℚ) then none
  else if (1000 : ℚ) < (d.bytes : ℚ) / d.duration / 1024 / 1024 then none
  else some ⟨ip_port, (d.bytes : ℚ) / d.duration / 1024 / 1024,
    d.bytes, d.duration, custom_config⟩

/-- The deterministic network oracle: what download outcome the run would
observe for a given candidate and (optional) custom config. -/
def NetOracle : Type := String → Option Config → DownloadOutcome

/-- `speed_mb_per_sec` as computed by the source for an outcome. -/
def speedOf (d : DownloadOutcome) : ℚ := (d.bytes : ℚ) / d.duration / 1024 / 1024

/-- Which phase of the two-phase state machine issued a probe. -/
inductive TestPhase where
  | one
  | two
deriving DecidableEq, Repr

/-- One `test_stream_speed` invocation performed during a run: the candidate,
the custom config passed (`none` = the run's default config), and the phase
that issued it. -/
structure ProbeEvent where
  ip : String
  cfg : Option Config
  phase : TestPhase
deriving DecidableEq, Repr

/-- ASCII model of Python `str.lower()` on one character. -/
def lowerChar (c : Char) : Char :=
  if 'A' ≤ c ∧ c ≤ 'Z' then Char.ofNat (c.toNat + 32) else c

/-- ASCII model of Python `str.lower()` (the strings compared are carrier
and region names, which are ASCII). -/
def lowerStr (s : String) : List Char := s.toList.map lowerChar

/-- The `remaining_configs` list-comprehension of `test_with_other_configs`
(lines 2124-2129): all loaded configs except those whose carrier and region
both match the run's defaults case-insensitively. -/
def remainingConfigs (allConfigs : List Config) (defIsp defRegion : String) :
    List Config :=
  allConfigs.filter fun c =>
    !(lowerStr c.isp == lowerStr defIsp && lowerStr c.region == lowerStr defRegion)

/-- The `for i, config in enumerate(remaining_configs, 1)` loop of
`test_with_other_configs` (lines 2133-2155): try each config in order,
return the first success; after a failed attempt numbered `i` with
`i >= 96`, stop.  Returns the result together with the trace of probes
issued. -/
def tryConfigs (net : NetOracle) (ip : String) :
    List Config → Nat → Option StreamResult × List ProbeEvent
  | [], _ => (none, [])
  | c :: rest, i =>
    match test_stream_speed ip (some c) (net ip (some c)) with
    | some r => (some r, [⟨ip, some c, TestPhase.two⟩])
    | none =>
      if 96 ≤ i then (none, [⟨ip, some c, TestPhase.two⟩])
      else
        let p := tryConfigs net ip rest (i + 1)
        (p.1, ⟨ip, some c, TestPhase.two⟩ :: p.2)

/-- Embedding of `test_with_other_configs` (lines 2119-2155). -/
def test_with_other_configs (net : NetOracle) (ip : String)
    (allConfigs : List Config) (defIsp defRegion : String) :
    Option StreamResult × List ProbeEvent :=
  tryConfigs net ip (remainingConfigs allConfigs defIsp defRegion) 1

/-- Phase 1 of `run_speed_tests` (lines 2177-2245): every candidate gets
exactly one `test_stream_speed` call with the default config; successes are
collected into `speed_results` and failures into `failed_ips`.  Returns
`(speed_results, failed_ips, probe trace)`. -/
def phase1 (net : NetOracle) :
    List String → List StreamResult × List String × List ProbeEvent
  | [] => ([], [], [])
  | ip :: rest =>
    let p := phase1 net rest
    match test_stream_speed ip none (net ip none) with
    | some r => (r :: p.1, p.2.1, ⟨ip, none, TestPhase.one⟩ :: p.2.2)
    | none => (p.1, ip :: p.2.1, ⟨ip, none, TestPhase.one⟩ :: p.2.2)

/-- Embedding of `run_speed_tests` (lines 2157-2355): phase 1 over the whole
list, then — only when `failed_ips` is non-empty and the run is not in fast
mode (`if failed_ips and not self.fast`, line 2248) — phase 2 runs
`test_with_other_configs` on each failed candidate, appending its successes
to `speed_results`.  Returns the recorded results and the probe trace. -/
def run_speed_tests (net : NetOracle) (ipList : List String) (fast : Bool)
    (allConfigs : List Config) (defIsp defRegion : String) :
    List StreamResult × List ProbeEvent :=
  let p := phase1 net ipList
  if p.2.1.isEmpty || fast then (p.1, p.2.2)
  else
    let pairs := p.2.1.map fun ip =>
      test_with_other_configs net ip allConfigs defIsp defRegion
    (p.1 ++ pairs.filterMap Prod.fst, p.2.2 ++ pairs.flatMap Prod.snd)

/-- The data carried by one line of the per-run result file, as written by
`_append_result_immediately` / `generate_results`
(`f"{speed:.3f}  {ip}{config_info}"` where `config_info` is
`f" [{isp}-{region}]"` when the result carries a config). -/
structure ResultLine where
  speed : ℚ
  ip : String
  tag : Option (String × String)
deriving DecidableEq, Repr

/-- The result-file line for a measurement. -/
def lineOf (r : StreamResult) : ResultLine :=
  ⟨r.speed, r.ip, r.config?.map fun c => (c.isp, c.region)⟩

/-- Embedding of `_append_result_immediately` (lines 2357-2401) acting on
the pair (result file contents, playlist file contents) for the files the
call targets.  The guard `if result['speed'] <= 0.1: return` (line 2361)
writes nothing at all; otherwise one line is appended to the result file and
the template content with `'ipipip'` replaced by the candidate is appended
to the playlist. -/
def append_result_immediately (tpl : String) (r : StreamResult)
    (f : List ResultLine × List String) : List ResultLine × List String :=
  if r.speed ≤ (0.1 : ℚ) then f
  else (f.1 ++ [lineOf r], f.2 ++ [tpl.replace "ipipip" r.ip])

/-- Contents of the run's default result file (`self.result_file`) after all
incremental `_append_result_immediately` calls, folded in the order the
results were recorded (the code appends inside the `as_completed` loop, so
the recorded order is worker-completion order; callers of this function
must list the results in that order).  Results carrying a custom config are
appended to their own per-config file instead (lines 2366-2376), so only
default-config results with speed above 0.1 land here. -/
def defaultResultFileAfterRun (results : List StreamResult) : List ResultLine :=
  results.foldl
    (fun f r =>
      if r.config?.isSome then f
      else if r.speed ≤ (0.1 : ℚ) then f
      else f ++ [lineOf r])
    []

/-- Stable descending insertion by speed, modelling the stable
`filtered_results.sort(key=..., reverse=True)` of `generate_results`. -/
def insertDesc (r : StreamResult) : List StreamResult → List StreamResult
  | [] => [r]
  | x :: xs => if x.speed < r.speed then r :: x :: xs else x :: insertDesc r xs

/-- Embedding of `generate_results` (lines 2426-2470) restricted to what it
writes into `self.result_file`: it keeps the results with `speed > 0.1`,
sorts them descending by speed, opens `self.result_file` in truncate (`'w'`)
mode and writes one line per surviving result. -/
def generate_results (results : List StreamResult) : List ResultLine :=
  ((results.filter fun r => (0.1 : ℚ) < r.speed).foldl
      (fun acc r => insertDesc r acc) []).map lineOf

/-- FOFA page size: `page_size = 10` (line 426). -/
def fofa_page_size : Nat := 10

/-- `total_pages = (total_size + page_size - 1) // page_size` (line 427). -/
def fofa_total_pages (total_size : Nat) : Nat :=
  (total_size + fofa_page_size - 1) / fofa_page_size

/-- `actual_pages = min(total_pages, self.max_pages)` (line 431). -/
def fofa_actual_pages (total_size max_pages : Nat) : Nat :=
  min (fofa_total_pages total_size) max_pages

/-- The list of page numbers `search_fofa_api` requests (lines 398-472):
always page 1 first (to learn the total), then — if `actual_pages > 1` —
pages `range(2, actual_pages + 1)`. -/
def search_fofa_api_pages (total_size max_pages : Nat) : List Nat :=
  if 1 < fofa_actual_pages total_size max_pages then
    1 :: List.range' 2 (fofa_actual_pages total_size max_pages - 1)
  else [1]

/-- One row handled by `MakeCSV.deduplicate_data`: a dict with (at least)
`host`, `ip`, `port` and an optional `_source` marker (`'existing'` for rows
read back from the persisted CSV, a backend tag for fresh rows, absent after
dedup). -/
structure Item where
  host : String
  ip : String
  port : String
  source : Option String
deriving DecidableEq, Repr

/-- `item.get('_source') == 'existing'`. -/
def isExistingItem (i : Item) : Bool := i.source == some "existing"

/-- Python `s.split('.')` on the character list of an IP string. -/
def splitDots : List Char → List (List Char)
  | [] => [[]]
  | c :: rest =>
    if c = '.' then [] :: splitDots rest
    else
      match splitDots rest with
      | [] => [[c]]
      | p :: ps => (c :: p) :: ps

/-- Python `'.'.join(parts)`. -/
def joinDots : List (List Char) → List Char
  | [] => []
  | [p] => p
  | p :: ps => p ++ '.' :: joinDots ps

/-- The C-segment grouping key of `deduplicate_data` (lines 1637-1648):
`f"{'.'.join(ip_parts[:3])}.x:{port}"` when `ip.split('.')` has at least
three parts, and no key (the item is skipped) otherwise. -/
def keyOf (i : Item) : Option (List Char) :=
  let parts := splitDots i.ip.toList
  if 3 ≤ parts.length then
    some (joinDots (parts.take 3) ++ '.' :: 'x' :: ':' :: i.port.toList)
  else none

/-- The shared-`host_seen` loop of Stage A (lines 1610-1628): keep each item
whose host has not been seen yet. -/
def dedupByHost : List String → List Item → List Item
  | _, [] => []
  | seen, i :: rest =>
    if i.host ∈ seen then dedupByHost seen rest
    else i :: dedupByHost (i.host :: seen) rest

/-- Stage A of `deduplicate_data`: existing items first, then fresh ones,
deduplicated by host with one shared seen-set. -/
def stageA (all : List Item) : List Item :=
  dedupByHost [] (all.filter isExistingItem ++ all.filter fun i => !isExistingItem i)

/-- The keys of `c_segment_port_map` in insertion order (a `defaultdict`
iterates its keys in first-insertion order). -/
def keysInOrder : List (List Char) → List Item → List (List Char)
  | _, [] => []
  | seen, i :: rest =>
    match keyOf i with
    | none => keysInOrder seen rest
    | some k =>
      if k ∈ seen then keysInOrder seen rest
      else k :: keysInOrder (k :: seen) rest

/-- The member list of one `c_segment_port_map` bucket, in insertion order. -/
def groupOf (k : List Char) (l : List Item) : List Item :=
  l.filter fun i => keyOf i == some k

/-- The per-bucket selection of Stage B (lines 1652-1663): the first
existing member if the bucket has one (`existing_items[0]`), otherwise the
first member (`items[0]`). -/
def survivor (items : List Item) : Option Item :=
  (items.filter isExistingItem).head?.orElse fun _ => items.head?

/-- Stage B of `deduplicate_data` (lines 1634-1663): group the Stage-A
output by C-segment+port key (items without a key are skipped) and keep one
member per bucket. -/
def stageB (l : List Item) : List Item :=
  (keysInOrder [] l).filterMap fun k => survivor (groupOf k l)

/-- `del item['_source']` (lines 1667-1669). -/
def stripSource (i : Item) : Item := ⟨i.host, i.ip, i.port, none⟩

/-- Embedding of `MakeCSV.deduplicate_data` (lines 1604-1672). -/
def deduplicate_data (all : List Item) : List Item :=
  (stageB (stageA all)).map stripSource

/-- Marking applied by `read_existing_csv` (line 1591) to rows read back
from the persisted CSV. -/
def markExisting (i : Item) : Item := ⟨i.host, i.ip, i.port, some "existing"⟩

/-- The spec-level `Dedupe(existing, fresh)` operation: the callers (e.g.
`process_jsmpeg`, lines 1734-1744) run `deduplicate_data` on
`existing_data + new_data` where the existing rows carry the `'existing'`
marker. -/
def Dedupe (existing fresh : List Item) : List Item :=
  deduplicate_data (existing.map markExisting ++ fresh)

/-- C4: whenever `test_stream_speed` returns a measurement, the reported
speed equals total bytes / elapsed seconds / 1024², the total bytes are at
least the 1024-byte floor, and the speed lies within [0.05, 1000] MB/s;
a download below the byte floor, or with speed outside the sane range,
yields `none` rather than a measurement. -/
theorem claim_C4_streamprobe_success_postcondition
    (ip : String) (cfg : Option Config) (d : DownloadOutcome) :
    (∀ r : StreamResult, test_stream_speed ip cfg d = some r →
        r.speed = (d.bytes : ℚ) / d.duration / (1024 * 1024)
        ∧ r.file_size = d.bytes
        ∧ 1024 ≤ r.file_size
        ∧ (0.05 : ℚ) ≤ r.speed
        ∧ r.speed ≤ 1000)
    ∧ (d.bytes < 1024 → test_stream_speed ip cfg d = none)
    ∧ (speedOf d < (0.05 : ℚ) → test_stream_speed ip cfg d = none)
    ∧ ((1000 : ℚ) < speedOf d → test_stream_speed ip cfg d = none) := by
  refine ⟨?_, ?_, ?_, ?_⟩
  · intro r h
    unfold test_stream_speed at h
    split_ifs at h with h1 h2 h3 h4 h5 h6 h7 <;> cases h
    refine ⟨?_, rfl, ?_, ?_, ?_⟩
    · show (d.bytes : ℚ) / d.duration / 1024 / 1024 = _
      rw [div_div]
    · exact Nat.le_of_not_lt h5
    · exact le_of_not_lt h6
    · exact le_of_not_lt h7
  · intro hb
    unfold test_stream_speed
    split_ifs <;> first | rfl | omega
  · intro hs
    unfold test_stream_speed
    split_ifs with h1 h2 h3 h4 h5 h6 h7 <;> try rfl
    exact absurd hs (not_lt.mpr (le_of_not_lt h6))
  · intro hs
    unfold test_stream_speed
    split_ifs with h1 h2 h3 h4 h5 h6 h7 <;> try rfl
    exact absurd hs h7

/-- Witness for C4 at the spec's own example: 2,097,152 bytes over 2.0
seconds is accepted and reported at exactly 1.00 MB/s. -/
theorem claim_C4_witness :
    test_stream_speed "1.2.3.4:8080" none ⟨false, 200, 2097152, 2⟩
        = some ⟨"1.2.3.4:8080", (1 : ℚ), 2097152, 2, none⟩
    ∧ ((1 : ℚ) = ((2097152 : ℕ) : ℚ) / 2 / (1024 * 1024)
        ∧ (2097152 : ℕ) = 2097152
        ∧ 1024 ≤ 2097152
        ∧ (0.05 : ℚ) ≤ 1
        ∧ (1 : ℚ) ≤ 1000) := by
  have h : test_stream_speed "1.2.3.4:8080" none ⟨false, 200, 2097152, 2⟩
      = some ⟨"1.2.3.4:8080", (1 : ℚ), 2097152, 2, none⟩ := by
    norm_num [test_stream_speed]
  exact ⟨h, (claim_C4_streamprobe_success_postcondition "1.2.3.4:8080" none
    ⟨false, 200, 2097152, 2⟩).1 ⟨"1.2.3.4:8080", (1 : ℚ), 2097152, 2, none⟩ h⟩

/-- C8: every FOFA search issues finitely many page requests (the model is a
finite list by construction); the number of pages requested never exceeds
the configured `max_pages` (which the CLI guarantees is at least 1, line
2718), and when the reported total implies more pages than `max_pages`,
exactly `min(ceil(total/page_size), max_pages)` pages are requested. -/
theorem claim_C8_pagination_bound (total_size max_pages : Nat)
    (h : 1 ≤ max_pages) :
    (search_fofa_api_pages total_size max_pages).length ≤ max_pages
    ∧ (max_pages < fofa_total_pages total_size →
        (search_fofa_api_pages total_size max_pages).length
          = min (fofa_total_pages total_size) max_pages) := by
  unfold search_fofa_api_pages fofa_actual_pages
  constructor
  · split_ifs with h1
    · simp only [List.length_cons, List.length_range']
      omega
    · simpa using h
  · intro hlt
    split_ifs with h1
    · simp only [List.length_cons, List.length_range']
      omega
    · simp only [List.length_singleton]
      omega

/-- Witness for C8: a reported total of 1000 rows with `max_pages = 10`
requests exactly 10 pages. -/
theorem claim_C8_witness :
    (search_fofa_api_pages 1000 10).length ≤ 10
    ∧ (10 < fofa_total_pages 1000 →
        (search_fofa_api_pages 1000 10).length = min (fofa_total_pages 1000) 10)
    ∧ (search_fofa_api_pages 1000 10).length = 10 := by
  refine ⟨(claim_C8_pagination_bound 1000 10 (by decide)).1,
    (claim_C8_pagination_bound 1000 10 (by decide)).2, by decide⟩

/-- A successful probe reports the candidate it was given as its `ip`. -/
theorem test_stream_speed_ip {ip : String} {cfg : Option Config}
    {d : DownloadOutcome} {r : StreamResult}
    (h : test_stream_speed ip cfg d = some r) : r.ip = ip := by
  unfold test_stream_speed at h
  split_ifs at h <;> cases h
  rfl

/-- A successful probe reports the config it was given. -/
theorem test_stream_speed_config {ip : String} {cfg : Option Config}
    {d : DownloadOutcome} {r : StreamResult}
    (h : test_stream_speed ip cfg d = some r) : r.config? = cfg := by
  unfold test_stream_speed at h
  split_ifs at h <;> cases h
  rfl

/-- Phase 1 issues exactly one default-config probe per candidate, in order. -/
theorem phase1_events (net : NetOracle) (l : List String) :
    (phase1 net l).2.2 = l.map fun ip => ⟨ip, none, TestPhase.one⟩ := by
  induction l with
  | nil => rfl
  | cons ip rest ih =>
    cases htest : test_stream_speed ip none (net ip none) <;>
      simp [phase1, htest, ih]

/-- The candidates of the phase-1 successes are the candidates whose default
probe succeeded, in input order. -/
theorem phase1_results_ips (net : NetOracle) (l : List String) :
    (phase1 net l).1.map (fun r => r.ip)
      = l.filter fun ip => (test_stream_speed ip none (net ip none)).isSome := by
  induction l with
  | nil => rfl
  | cons ip rest ih =>
    cases htest : test_stream_speed ip none (net ip none) with
    | none => simpa [phase1, htest] using ih
    | some r =>
      have : r.ip = ip := test_stream_speed_ip htest
      simp [phase1, htest, ih, this]

/-- `failed_ips` is exactly the list of candidates whose default probe
failed, in input order. -/
theorem phase1_failed (net : NetOracle) (l : List String) :
    (phase1 net l).2.1
      = l.filter fun ip => (test_stream_speed ip none (net ip none)).isNone := by
  induction l with
  | nil => rfl
  | cons ip rest ih =>
    cases htest : test_stream_speed ip none (net ip none) <;>
      simp [phase1, htest, ih]

/-- A phase-1 success is collected into `speed_results`. -/
theorem phase1_mem_results {net : NetOracle} {l : List String} {ip : String}
    {r : StreamResult} (hip : ip ∈ l)
    (h : test_stream_speed ip none (net ip none) = some r) :
    r ∈ (phase1 net l).1 := by
  induction l with
  | nil => cases hip
  | cons x rest ih =>
    rcases List.mem_cons.mp hip with rfl | hmem
    · simp [phase1, h]
    · cases htest : test_stream_speed x none (net x none) <;>
        simp [phase1, htest, ih hmem]

/-- Every probe issued by `tryConfigs` targets the candidate it was started
for and is a phase-2 probe. -/
theorem tryConfigs_events {net : NetOracle} {ip : String} :
    ∀ (cs : List Config) (i : Nat) (e : ProbeEvent),
      e ∈ (tryConfigs net ip cs i).2 → e.ip = ip ∧ e.phase = TestPhase.two := by
  intro cs
  induction cs with
  | nil => intro i e he; cases he
  | cons c rest ih =>
    intro i e he
    rw [tryConfigs] at he
    rcases htest : test_stream_speed ip (some c) (net ip (some c)) with _ | r
    · rw [htest] at he
      by_cases hcap : 96 ≤ i
      · rw [if_pos hcap] at he
        rw [List.mem_singleton.mp he]
        exact ⟨rfl, rfl⟩
      · rw [if_neg hcap] at he
        rcases List.mem_cons.mp he with rfl | he
        · exact ⟨rfl, rfl⟩
        · exact ih (i + 1) e he
    · rw [htest] at he
      rw [List.mem_singleton.mp he]
      exact ⟨rfl, rfl⟩

/-- A success returned by `tryConfigs` reports the candidate it was started
for. -/
theorem tryConfigs_result_ip {net : NetOracle} {ip : String} :
    ∀ (cs : List Config) (i : Nat) (r : StreamResult),
      (tryConfigs net ip cs i).1 = some r → r.ip = ip := by
  intro cs
  induction cs with
  | nil => intro i r h; cases h
  | cons c rest ih =>
    intro i r h
    rw [tryConfigs] at h
    rcases htest : test_stream_speed ip (some c) (net ip (some c)) with _ | r'
    · rw [htest] at h
      by_cases hcap : 96 ≤ i
      · rw [if_pos hcap] at h; cases h
      · rw [if_neg hcap] at h
        exact ih (i + 1) r h
    · rw [htest] at h
      cases h
      exact test_stream_speed_ip htest

/-- C2: the probe trace of `run_speed_tests` splits into the phase-1 probes
followed by the phase-2 probes; every phase-2 probe targets a candidate
whose phase-1 default probe is in the earlier part and returned no result;
and phase-2 probes exist only when the phase-1 failure list is non-empty
and the run is not in fast mode. -/
theorem claim_C2_phase_ordering (net : NetOracle) (ipList : List String)
    (fast : Bool) (allConfigs : List Config) (defIsp defRegion : String) :
    ∃ p1 p2 : List ProbeEvent,
      (run_speed_tests net ipList fast allConfigs defIsp defRegion).2 = p1 ++ p2
      ∧ (∀ e ∈ p1, e.phase = TestPhase.one ∧ e.cfg = none)
      ∧ (∀ e ∈ p2, e.phase = TestPhase.two
          ∧ test_stream_speed e.ip none (net e.ip none) = none
          ∧ ProbeEvent.mk e.ip none TestPhase.one ∈ p1)
      ∧ (p2 ≠ [] → (phase1 net ipList).2.1 ≠ [] ∧ fast = false) := by
  have hp1 : ∀ e ∈ (phase1 net ipList).2.2,
      e.phase = TestPhase.one ∧ e.cfg = none := by
    intro e he
    rw [phase1_events] at he
    rcases List.mem_map.mp he with ⟨ip, _, rfl⟩
    exact ⟨rfl, rfl⟩
  unfold run_speed_tests
  by_cases hcond : (phase1 net ipList).2.1.isEmpty || fast
  · refine ⟨(phase1 net ipList).2.2, [], by simp [hcond], hp1, ?_, ?_⟩
    · intro e he; cases he
    · intro h; cases h rfl
  · rw [if_neg hcond]
    refine ⟨(phase1 net ipList).2.2, _, rfl, hp1, ?_, ?_⟩
    · intro e he
      rcases List.mem_flatMap.mp he with ⟨pair, hpair, hepair⟩
      rcases List.mem_map.mp hpair with ⟨ip, hipfail, rfl⟩
      have h2 := tryConfigs_events
        (remainingConfigs allConfigs defIsp defRegion) 1 e hepair
      have hfail : test_stream_speed ip none (net ip none) = none := by
        rw [phase1_failed] at hipfail
        have := List.of_mem_filter hipfail
        simpa [Option.isNone_iff_eq_none] using this
      have hmem : ip ∈ ipList := by
        rw [phase1_failed] at hipfail
        exact List.mem_of_mem_filter hipfail
      refine ⟨h2.2, ?_, ?_⟩
      · rw [h2.1]; exact hfail
      · rw [phase1_events, h2.1]
        exact List.mem_map.mpr ⟨ip, hmem, rfl⟩
    · intro _
      have h := hcond
      simp only [Bool.or_eq_true, not_or, List.isEmpty_iff] at h
      exact ⟨h.1, by simpa using h.2⟩

/-- Starting from attempt number `i ≤ 96`, `tryConfigs` issues at most
`97 - i` probes. -/
theorem tryConfigs_length_le {net : NetOracle} {ip : String} :
    ∀ (cs : List Config) (i : Nat), i ≤ 96 →
      (tryConfigs net ip cs i).2.length ≤ 97 - i := by
  intro cs
  induction cs with
  | nil => intro i hi; simp [tryConfigs]
  | cons c rest ih =>
    intro i hi
    rw [tryConfigs]
    rcases test_stream_speed ip (some c) (net ip (some c)) with _ | r
    · by_cases hcap : 96 ≤ i
      · rw [if_pos hcap]; simp; omega
      · rw [if_neg hcap]
        have := ih (i + 1) (by omega)
        simp only [List.length_cons]
        omega
    · simp; omega

/-- The configs probed by `tryConfigs` are an initial prefix of the config
list, in its order. -/
theorem tryConfigs_events_take {net : NetOracle} {ip : String} :
    ∀ (cs : List Config) (i : Nat),
      (tryConfigs net ip cs i).2.map (fun e => e.cfg)
        = (cs.take (tryConfigs net ip cs i).2.length).map some := by
  intro cs
  induction cs with
  | nil => intro i; simp [tryConfigs]
  | cons c rest ih =>
    intro i
    rw [tryConfigs]
    rcases test_stream_speed ip (some c) (net ip (some c)) with _ | r
    · by_cases hcap : 96 ≤ i
      · rw [if_pos hcap]; simp
      · rw [if_neg hcap]
        simp only [List.map_cons, List.length_cons, List.take_succ_cons]
        rw [ih (i + 1)]
    · simp

/-- If every config before `c` fails and `c` succeeds within the attempt
cap, `tryConfigs` returns `c`'s measurement and its trace stops at `c`:
the configs after `c` are never attempted. -/
theorem tryConfigs_first_success {net : NetOracle} {ip : String} :
    ∀ (pre : List Config) (c : Config) (post : List Config)
      (r : StreamResult) (i : Nat),
      (∀ c' ∈ pre, test_stream_speed ip (some c') (net ip (some c')) = none) →
      test_stream_speed ip (some c) (net ip (some c)) = some r →
      i + pre.length ≤ 96 →
      tryConfigs net ip (pre ++ c :: post) i
        = (some r, (pre ++ [c]).map fun c' => ⟨ip, some c', TestPhase.two⟩) := by
  intro pre
  induction pre with
  | nil =>
    intro c post r i _ hc _
    rw [List.nil_append, tryConfigs, hc]
    simp
  | cons p rest ih =>
    intro c post r i hpre hc hcap
    have hp : test_stream_speed ip (some p) (net ip (some p)) = none :=
      hpre p (List.mem_cons_self p rest)
    have hrest : ∀ c' ∈ rest,
        test_stream_speed ip (some c') (net ip (some c')) = none :=
      fun c' hc' => hpre c' (List.mem_cons_of_mem p hc')
    have hcap' : ¬ 96 ≤ i := by
      simp only [List.length_cons] at hcap
      omega
    rw [List.cons_append, tryConfigs, hp, if_neg hcap',
      ih c post r (i + 1) hrest hc (by simp at hcap ⊢; omega)]
    simp

/-- C3: for a phase-1-failed candidate, `test_with_other_configs` probes the
non-default catalog entries sequentially in their catalog order (the probed
configs form an initial prefix of `remaining_configs`), issues at most 96
probes, and whenever the entries split as `pre ++ c :: post` with every
entry of `pre` failing and `c` succeeding within the cap, it returns `c`'s
measurement with a trace that stops at `c` — the entries of `post` are
never attempted. -/
theorem claim_C3_phase2_first_success (net : NetOracle) (ip : String)
    (allConfigs : List Config) (defIsp defRegion : String) :
    (test_with_other_configs net ip allConfigs defIsp defRegion).2.length ≤ 96
    ∧ (test_with_other_configs net ip allConfigs defIsp defRegion).2.map
          (fun e => e.cfg)
        = ((remainingConfigs allConfigs defIsp defRegion).take
            (test_with_other_configs net ip allConfigs defIsp defRegion).2.length).map
            some
    ∧ ∀ (pre : List Config) (c : Config) (post : List Config)
        (r : StreamResult),
        remainingConfigs allConfigs defIsp defRegion = pre ++ c :: post →
        (∀ c' ∈ pre, test_stream_speed ip (some c') (net ip (some c')) = none) →
        test_stream_speed ip (some c) (net ip (some c)) = some r →
        pre.length < 96 →
        test_with_other_configs net ip allConfigs defIsp defRegion
          = (some r, (pre ++ [c]).map fun c' => ⟨ip, some c', TestPhase.two⟩) := by
  refine ⟨?_, ?_, ?_⟩
  · have := @tryConfigs_length_le net ip
      (remainingConfigs allConfigs defIsp defRegion) 1 (by omega)
    simpa [test_with_other_configs] using this
  · exact tryConfigs_events_take (remainingConfigs allConfigs defIsp defRegion) 1
  · intro pre c post r hsplit hpre hc hlen
    unfold test_with_other_configs
    rw [hsplit]
    exact tryConfigs_first_success pre c post r 1 hpre hc (by omega)

/-- The candidates of the phase-2 successes are exactly the failed
candidates for which `test_with_other_configs` found a config, in order. -/
theorem phase2_results_ips (net : NetOracle) (allConfigs : List Config)
    (defIsp defRegion : String) :
    ∀ fs : List String,
      ((fs.map fun ip =>
          test_with_other_configs net ip allConfigs defIsp defRegion).filterMap
            Prod.fst).map (fun r => r.ip)
        = fs.filter fun ip =>
            (test_with_other_configs net ip allConfigs defIsp defRegion).1.isSome := by
  intro fs
  induction fs with
  | nil => rfl
  | cons ip rest ih =>
    rcases hres : (test_with_other_configs net ip allConfigs defIsp defRegion).1
      with _ | r
    · simpa [hres] using ih
    · have : r.ip = ip :=
        tryConfigs_result_ip (remainingConfigs allConfigs defIsp defRegion) 1 r hres
      rw [List.map_cons]
      simp only [List.filterMap_cons, hres]
      rw [List.map_cons, this, ih, List.filter_cons]
      simp [hres]

/-- C5: in a single run over a duplicate-free candidate list (the caller
passes `list(set(...))`, line 1903), no candidate contributes more than one
recorded result: the list of recorded candidates is duplicate-free. -/
theorem claim_C5_at_most_one_success (net : NetOracle) (ipList : List String)
    (fast : Bool) (allConfigs : List Config) (defIsp defRegion : String)
    (h : ipList.Nodup) :
    ((run_speed_tests net ipList fast allConfigs defIsp defRegion).1.map
      (fun r => r.ip)).Nodup := by
  unfold run_speed_tests
  by_cases hcond : (phase1 net ipList).2.1.isEmpty || fast
  · rw [if_pos hcond]
    rw [phase1_results_ips]
    exact h.filter _
  · rw [if_neg hcond]
    simp only [List.map_append]
    rw [phase1_results_ips, phase2_results_ips, phase1_failed]
    refine List.Nodup.append (h.filter _) ((h.filter _).filter _) ?_
    intro ip h1 h2
    have hs := List.of_mem_filter h1
    have hn := List.of_mem_filter (List.mem_of_mem_filter h2)
    rcases htest : test_stream_speed ip none (net ip none) with _ | r
    · rw [htest] at hs; cases hs
    · rw [htest] at hn; cases hn

/-- Membership in a descending insertion. -/
theorem mem_insertDesc {x r : StreamResult} :
    ∀ l : List StreamResult, x ∈ insertDesc r l ↔ x = r ∨ x ∈ l := by
  intro l
  induction l with
  | nil => simp [insertDesc]
  | cons y ys ih =>
    by_cases hlt : y.speed < r.speed
    · simp [insertDesc, hlt]
    · simp only [insertDesc, if_neg hlt, List.mem_cons, ih]
      tauto

/-- Membership in the sort accumulator of `generate_results`. -/
theorem mem_foldl_insertDesc {x : StreamResult} :
    ∀ (l acc : List StreamResult),
      x ∈ l.foldl (fun a r => insertDesc r a) acc ↔ x ∈ acc ∨ x ∈ l := by
  intro l
  induction l with
  | nil => simp
  | cons y ys ih =>
    intro acc
    rw [List.foldl_cons, ih (insertDesc y acc), mem_insertDesc]
    simp only [List.mem_cons]
    tauto

/-- C9: a measurement accepted by `test_stream_speed` with speed in
(0.05, 0.1] is recorded as a success in the run's `speed_results` (and thus
in its progress statistics), yet `_append_result_immediately` writes nothing
for it and `generate_results` never emits its line into the result file. -/
theorem claim_C9_success_below_persistence_threshold (net : NetOracle)
    (ipList : List String) (fast : Bool) (allConfigs : List Config)
    (defIsp defRegion : String) (ip : String) (r : StreamResult)
    (tpl : String) (f : List ResultLine × List String)
    (hip : ip ∈ ipList)
    (hr : test_stream_speed ip none (net ip none) = some r)
    (h1 : (0.05 : ℚ) < r.speed) (h2 : r.speed ≤ (0.1 : ℚ)) :
    r ∈ (run_speed_tests net ipList fast allConfigs defIsp defRegion).1
    ∧ append_result_immediately tpl r f = f
    ∧ ∀ results : List StreamResult, lineOf r ∉ generate_results results := by
  refine ⟨?_, ?_, ?_⟩
  · have hmem : r ∈ (phase1 net ipList).1 := phase1_mem_results hip hr
    unfold run_speed_tests
    by_cases hcond : (phase1 net ipList).2.1.isEmpty || fast
    · rw [if_pos hcond]; exact hmem
    · rw [if_neg hcond]; exact List.mem_append_left _ hmem
  · unfold append_result_immediately
    rw [if_pos h2]
  · intro results hmem
    unfold generate_results at hmem
    rcases List.mem_map.mp hmem with ⟨x, hx, hline⟩
    have hxf := (mem_foldl_insertDesc _ _).mp hx
    simp only [List.mem_filter, or_false, List.not_mem_nil, false_or] at hxf
    have hxspeed : (0.1 : ℚ) < x.speed := by
      have := hxf.2
      simpa using this
    have : x.speed = r.speed := congrArg ResultLine.speed hline
    rw [this] at hxspeed
    exact absurd (lt_of_lt_of_le hxspeed h2) (lt_irrefl _)

/-- C1 (amended): while `run_speed_tests` is testing, every
`_append_result_immediately` call only extends the files it touches, and a
candidate of the run whose default probe succeeded is probed exactly once
in the whole run (never re-tested); the end-of-run `generate_results` /
`_merge_template_file` rewrite is what breaks the claim as stated. -/
theorem claim_C1_append_only_during_run (net : NetOracle)
    (ipList : List String) (fast : Bool) (allConfigs : List Config)
    (defIsp defRegion : String) (ip : String) (r : StreamResult)
    (tpl : String) (f : List ResultLine × List String)
    (hnd : ipList.Nodup) (hip : ip ∈ ipList)
    (hr : test_stream_speed ip none (net ip none) = some r) :
    (∃ t1 t2, append_result_immediately tpl r f = (f.1 ++ t1, f.2 ++ t2))
    ∧ ((run_speed_tests net ipList fast allConfigs defIsp defRegion).2.filter
        (fun e => e.ip == ip)).length = 1 := by
  constructor
  · unfold append_result_immediately
    by_cases h : r.speed ≤ (0.1 : ℚ)
    · exact ⟨[], [], by rw [if_pos h]; simp⟩
    · exact ⟨[lineOf r], [tpl.replace "ipipip" r.ip], by rw [if_neg h]⟩
  · have hcount : ∀ l : List String, l.Nodup → ip ∈ l →
        ((l.map fun x => (⟨x, none, TestPhase.one⟩ : ProbeEvent)).filter
          (fun e => e.ip == ip)).length = 1 := by
      intro l
      induction l with
      | nil => intro _ hmem; cases hmem
      | cons x rest ih =>
        intro hl hmem
        simp only [List.map_cons, List.filter_cons]
        by_cases hx : x = ip
        · have hb : ((⟨x, none, TestPhase.one⟩ : ProbeEvent).ip == ip) = true := by
            simp [hx]
          rw [hb]
          have hzero : ((rest.map fun y =>
              (⟨y, none, TestPhase.one⟩ : ProbeEvent)).filter
                (fun e => e.ip == ip)).length = 0 := by
            rw [List.length_eq_zero, List.filter_eq_nil_iff]
            intro e he
            rcases List.mem_map.mp he with ⟨y, hy, rfl⟩
            simp only [beq_iff_eq]
            intro hcontra
            exact (List.nodup_cons.mp hl).1 (by rw [hx, ← hcontra]; exact hy)
          simp [hzero]
        · have hb : ((⟨x, none, TestPhase.one⟩ : ProbeEvent).ip == ip) = false := by
            simpa using hx
          rw [hb]
          have hmem2 : ip ∈ rest := by
            rcases List.mem_cons.mp hmem with h | h
            · exact absurd h.symm hx
            · exact h
          simpa using ih hl.of_cons hmem2
    have hp2 : ∀ evs2 : List ProbeEvent, (∀ e ∈ evs2, e.ip ≠ ip) →
        ∀ evs1 : List ProbeEvent,
          ((evs1 ++ evs2).filter (fun e => e.ip == ip)).length
            = (evs1.filter (fun e => e.ip == ip)).length := by
      intro evs2 h2 evs1
      rw [List.filter_append]
      have : evs2.filter (fun e => e.ip == ip) = [] := by
        rw [List.filter_eq_nil_iff]
        intro e he
        simpa using h2 e he
      rw [this]
      simp
    unfold run_speed_tests
    by_cases hcond : (phase1 net ipList).2.1.isEmpty || fast
    · rw [if_pos hcond, phase1_events]
      exact hcount ipList hnd hip
    · rw [if_neg hcond]
      simp only []
      rw [hp2, phase1_events]
      · exact hcount ipList hnd hip
      · intro e he
        rcases List.mem_flatMap.mp he with ⟨pair, hpair, hepair⟩
        rcases List.mem_map.mp hpair with ⟨ip', hfail, rfl⟩
        have heip := (tryConfigs_events
          (remainingConfigs allConfigs defIsp defRegion) 1 e hepair).1
        rw [heip]
        intro hcontra
        subst hcontra
        rw [phase1_failed] at hfail
        have := List.of_mem_filter hfail
        rw [hr] at this
        cases this

/-- A concrete network in which both candidates pass the default-config
probe: candidate 1 serves a short stream that ends after 200 KB in 1 second
(0.1953 MB/s), candidate 2 serves the full 2 MB cap in 4 seconds
(0.5 MB/s).  Both probes are submitted together to the 8-worker phase-1
pool, so candidate 1's probe completes about 3 seconds before candidate
2's: the incremental appends happen in exactly the order modelled below
(candidate 1's line first). -/
def overwriteNet : NetOracle := fun ip _ =>
  if ip = "10.0.0.1:4022" then ⟨false, 200, 204800, 1⟩
  else ⟨false, 200, 2097152, 4⟩

/-- C1 (counterexample): the claim that no later operation of the same run
overwrites already-recorded result lines is false.  The appends happen in
worker-completion order, and on `overwriteNet` that order is candidate 1
(1-second probe) before candidate 2 (4-second probe), which is what the
fold below computes: the incremental result file reads
`0.195  10.0.0.1:4022` first.  `generate_results` — still part of the same
run (`run`, lines 2656-2659) — then reopens the file in `'w'` mode and
rewrites it sorted by descending speed, so the first recorded line has been
replaced by a different line (`0.500  10.0.0.2:4022`). -/
theorem claim_C1_counterexample :
    (defaultResultFileAfterRun
        (run_speed_tests overwriteNet ["10.0.0.1:4022", "10.0.0.2:4022"] true []
          "telecom" "hubei").1).head?
      ≠ (generate_results
        (run_speed_tests overwriteNet ["10.0.0.1:4022", "10.0.0.2:4022"] true []
          "telecom" "hubei").1).head? := by
  have hnet1 : overwriteNet "10.0.0.1:4022" none = ⟨false, 200, 204800, 1⟩ := by
    unfold overwriteNet
    rw [if_pos rfl]
  have hnet2 : overwriteNet "10.0.0.2:4022" none = ⟨false, 200, 2097152, 4⟩ := by
    unfold overwriteNet
    rw [if_neg (by decide)]
  have h1 : test_stream_speed "10.0.0.1:4022" none
      (overwriteNet "10.0.0.1:4022" none)
      = some ⟨"10.0.0.1:4022", 25/128, 204800, 1, none⟩ := by
    rw [hnet1]
    norm_num [test_stream_speed]
  have h2 : test_stream_speed "10.0.0.2:4022" none
      (overwriteNet "10.0.0.2:4022" none)
      = some ⟨"10.0.0.2:4022", 1/2, 2097152, 4, none⟩ := by
    rw [hnet2]
    norm_num [test_stream_speed]
  have hrun : (run_speed_tests overwriteNet
      ["10.0.0.1:4022", "10.0.0.2:4022"] true [] "telecom" "hubei").1
      = [⟨"10.0.0.1:4022", 25/128, 204800, 1, none⟩,
         ⟨"10.0.0.2:4022", 1/2, 2097152, 4, none⟩] := by
    simp [run_speed_tests, phase1, h1, h2]
  rw [hrun]
  have hfile : defaultResultFileAfterRun
      [⟨"10.0.0.1:4022", 25/128, 204800, 1, none⟩,
       ⟨"10.0.0.2:4022", 1/2, 2097152, 4, none⟩]
      = [⟨25/128, "10.0.0.1:4022", none⟩, ⟨1/2, "10.0.0.2:4022", none⟩] := by
    norm_num [defaultResultFileAfterRun, lineOf]
  have hgen : generate_results
      [⟨"10.0.0.1:4022", 25/128, 204800, 1, none⟩,
       ⟨"10.0.0.2:4022", 1/2, 2097152, 4, none⟩]
      = [⟨1/2, "10.0.0.2:4022", none⟩, ⟨25/128, "10.0.0.1:4022", none⟩] := by
    norm_num [generate_results, insertDesc, lineOf]
  rw [hfile, hgen]
  simp only [List.head?_cons, ne_eq, Option.some.injEq]
  intro hcontra
  have := congrArg ResultLine.ip hcontra
  simp at this

/-- A network where every default probe succeeds at 0.5 MB/s. -/
def halfMBNet : NetOracle := fun _ _ => ⟨false, 200, 2097152, 4⟩

/-- Witness for the amended C1, on a one-candidate run whose default probe
succeeds at 0.5 MB/s. -/
theorem claim_C1_witness :
    (∃ t1 t2, append_result_immediately "tpl"
        ⟨"1.1.1.1:80", 1/2, 2097152, 4, none⟩ ([], [])
        = (([] : List ResultLine) ++ t1, ([] : List String) ++ t2))
    ∧ ((run_speed_tests halfMBNet ["1.1.1.1:80"] false [] "telecom"
        "shanghai").2.filter (fun e => e.ip == "1.1.1.1:80")).length = 1 :=
  claim_C1_append_only_during_run halfMBNet ["1.1.1.1:80"] false [] "telecom"
    "shanghai" "1.1.1.1:80" ⟨"1.1.1.1:80", 1/2, 2097152, 4, none⟩ "tpl" ([], [])
    (by simp) (by simp) (by norm_num [test_stream_speed, halfMBNet])

/-- A network where every probe fails with a connection error. -/
def failNet : NetOracle := fun _ _ => ⟨true, 200, 0, 0⟩

/-- Witness for C2 on a concrete run with one failing candidate and fast
mode off. -/
theorem claim_C2_witness :
    ∃ p1 p2 : List ProbeEvent,
      (run_speed_tests failNet ["2.2.2.2:80"] false [] "telecom"
        "shanghai").2 = p1 ++ p2
      ∧ (∀ e ∈ p1, e.phase = TestPhase.one ∧ e.cfg = none)
      ∧ (∀ e ∈ p2, e.phase = TestPhase.two
          ∧ test_stream_speed e.ip none (failNet e.ip none) = none
          ∧ ProbeEvent.mk e.ip none TestPhase.one ∈ p1)
      ∧ (p2 ≠ [] → (phase1 failNet ["2.2.2.2:80"]).2.1 ≠ [] ∧ false = false) :=
  claim_C2_phase_ordering failNet ["2.2.2.2:80"] false [] "telecom" "shanghai"

/-- First phase-2 catalog entry of the C3 witness (probe fails). -/
def cfgA : Config := ⟨"unicom", "anhui", "hefei", "udp/239.0.0.1:1000"⟩

/-- Second phase-2 catalog entry of the C3 witness (probe succeeds). -/
def cfgB : Config := ⟨"unicom", "fujian", "fuzhou", "udp/239.0.0.2:1000"⟩

/-- Third phase-2 catalog entry of the C3 witness (never attempted). -/
def cfgC : Config := ⟨"unicom", "gansu", "lanzhou", "udp/239.0.0.3:1000"⟩

/-- A network failing on `cfgA` (HTTP 404) and succeeding elsewhere. -/
def abcNet : NetOracle := fun _ cfg =>
  if cfg = some cfgA then ⟨false, 404, 0, 1⟩ else ⟨false, 200, 2097152, 4⟩

/-- Witness for C3: with entries `[cfgA, cfgB, cfgC]` where `cfgA` fails and
`cfgB` succeeds, the search returns `cfgB`'s measurement, probes exactly
`[cfgA, cfgB]`, and never attempts `cfgC`. -/
theorem claim_C3_witness :
    test_with_other_configs abcNet "3.3.3.3:80" [cfgA, cfgB, cfgC] "telecom"
        "shanghai"
      = (some ⟨"3.3.3.3:80", 1/2, 2097152, 4, some cfgB⟩,
         [⟨"3.3.3.3:80", some cfgA, TestPhase.two⟩,
          ⟨"3.3.3.3:80", some cfgB, TestPhase.two⟩])
    ∧ (test_with_other_configs abcNet "3.3.3.3:80" [cfgA, cfgB, cfgC] "telecom"
        "shanghai").2.length ≤ 96 := by
  have h := claim_C3_phase2_first_success abcNet "3.3.3.3:80" [cfgA, cfgB, cfgC]
    "telecom" "shanghai"
  have hrem : remainingConfigs [cfgA, cfgB, cfgC] "telecom" "shanghai"
      = [cfgA, cfgB, cfgC] := by decide
  have hA : test_stream_speed "3.3.3.3:80" (some cfgA)
      (abcNet "3.3.3.3:80" (some cfgA)) = none := by
    have : abcNet "3.3.3.3:80" (some cfgA) = ⟨false, 404, 0, 1⟩ := by
      unfold abcNet
      rw [if_pos rfl]
    rw [this]
    norm_num [test_stream_speed]
  have hB : test_stream_speed "3.3.3.3:80" (some cfgB)
      (abcNet "3.3.3.3:80" (some cfgB))
      = some ⟨"3.3.3.3:80", 1/2, 2097152, 4, some cfgB⟩ := by
    have : abcNet "3.3.3.3:80" (some cfgB) = ⟨false, 200, 2097152, 4⟩ := by
      unfold abcNet
      rw [if_neg (by decide)]
    rw [this]
    norm_num [test_stream_speed]
  have hfirst := h.2.2 [cfgA] cfgB [cfgC]
    ⟨"3.3.3.3:80", 1/2, 2097152, 4, some cfgB⟩
    (by rw [hrem]; rfl)
    (by intro c' hc'; rw [List.mem_singleton.mp hc']; exact hA)
    hB (by norm_num)
  refine ⟨?_, h.1⟩
  rw [hfirst]
  rfl

/-- A network where both probes of a two-candidate run succeed. -/
def pairNet : NetOracle := fun _ _ => ⟨false, 200, 2097152, 4⟩

/-- Witness for C5 on a concrete duplicate-free two-candidate run. -/
theorem claim_C5_witness :
    ((run_speed_tests pairNet ["5.5.5.5:80", "5.5.5.6:80"] false [] "telecom"
      "shanghai").1.map (fun r => r.ip)).Nodup :=
  claim_C5_at_most_one_success pairNet ["5.5.5.5:80", "5.5.5.6:80"] false []
    "telecom" "shanghai" (by simp)

/-- A network where every probe succeeds at exactly 0.08 MB/s. -/
def slowNet : NetOracle := fun _ _ => ⟨false, 200, 2097152, 25⟩

/-- Witness for C9: a 0.08 MB/s measurement is counted as a success but
never written to the result file or playlist. -/
theorem claim_C9_witness :
    (⟨"9.9.9.9:80", 2/25, 2097152, 25, none⟩ : StreamResult)
        ∈ (run_speed_tests slowNet ["9.9.9.9:80"] false [] "telecom"
            "shanghai").1
    ∧ append_result_immediately "tpl" ⟨"9.9.9.9:80", 2/25, 2097152, 25, none⟩
        ([], []) = ([], [])
    ∧ lineOf ⟨"9.9.9.9:80", 2/25, 2097152, 25, none⟩
        ∉ generate_results [⟨"9.9.9.9:80", 2/25, 2097152, 25, none⟩] := by
  have h := claim_C9_success_below_persistence_threshold slowNet ["9.9.9.9:80"]
    false [] "telecom" "shanghai" "9.9.9.9:80"
    ⟨"9.9.9.9:80", 2/25, 2097152, 25, none⟩ "tpl" ([], [])
    (by simp) (by norm_num [test_stream_speed, slowNet]) (by norm_num)
    (by norm_num)
  exact ⟨h.1, h.2.1, h.2.2 [⟨"9.9.9.9:80", 2/25, 2097152, 25, none⟩]⟩

/-- `stripSource` does not change the grouping key. -/
theorem keyOf_stripSource (i : Item) : keyOf (stripSource i) = keyOf i := rfl

/-- `markExisting` does not change the grouping key. -/
theorem keyOf_markExisting (i : Item) : keyOf (markExisting i) = keyOf i := rfl

/-- A survivor belongs to its bucket. -/
theorem survivor_mem {g : List Item} {x : Item} (h : survivor g = some x) :
    x ∈ g := by
  unfold survivor at h
  rcases hf : (g.filter isExistingItem).head? with _ | e
  · rw [hf] at h
    exact List.mem_of_mem_head? (show g.head? = some x from h)
  · rw [hf] at h
    have he : e = x := Option.some_injective _ (show some e = some x from h)
    rw [← he]
    exact List.mem_of_mem_filter (List.mem_of_mem_head? hf)

/-- A non-empty bucket has a survivor. -/
theorem survivor_isSome {g : List Item} (h : g ≠ []) :
    ∃ x, survivor g = some x := by
  unfold survivor
  rcases hf : (g.filter isExistingItem).head? with _ | e
  · rcases g with _ | ⟨a, g'⟩
    · cases h rfl
    · exact ⟨a, rfl⟩
  · exact ⟨e, rfl⟩

/-- The survivor of a one-element bucket is that element. -/
theorem survivor_singleton (x : Item) : survivor [x] = some x := by
  unfold survivor
  by_cases hx : isExistingItem x <;> simp [hx]

/-- When the bucket has existing members, the survivor is the first one. -/
theorem survivor_of_filter_cons {g : List Item} {e : Item} {rest : List Item}
    (h : g.filter isExistingItem = e :: rest) : survivor g = some e := by
  unfold survivor
  rw [h]
  rfl

/-- When the bucket has no existing member, the survivor is its first
member. -/
theorem survivor_of_filter_nil {g : List Item}
    (h : g.filter isExistingItem = []) : survivor g = g.head? := by
  unfold survivor
  rw [h]
  rfl

/-- Bucket membership. -/
theorem mem_groupOf {x : Item} {k : List Char} {l : List Item} :
    x ∈ groupOf k l ↔ x ∈ l ∧ keyOf x = some k := by
  simp [groupOf, List.mem_filter]

/-- Every key produced by `keysInOrder` is the key of some input item. -/
theorem keysInOrder_exists_mem {k : List Char} :
    ∀ (l : List Item) (seen : List (List Char)),
      k ∈ keysInOrder seen l → ∃ i ∈ l, keyOf i = some k := by
  intro l
  induction l with
  | nil => intro seen h; cases h
  | cons i rest ih =>
    intro seen h
    rcases hk : keyOf i with _ | k'
    · simp only [keysInOrder, hk] at h
      rcases ih seen h with ⟨j, hj, hjk⟩
      exact ⟨j, List.mem_cons_of_mem i hj, hjk⟩
    · simp only [keysInOrder, hk] at h
      by_cases hs : k' ∈ seen
      · rw [if_pos hs] at h
        rcases ih seen h with ⟨j, hj, hjk⟩
        exact ⟨j, List.mem_cons_of_mem i hj, hjk⟩
      · rw [if_neg hs] at h
        rcases List.mem_cons.mp h with rfl | h
        · exact ⟨i, List.mem_cons_self i rest, hk⟩
        · rcases ih (k' :: seen) h with ⟨j, hj, hjk⟩
          exact ⟨j, List.mem_cons_of_mem i hj, hjk⟩

/-- `keysInOrder` never emits a key it has already seen. -/
theorem keysInOrder_not_mem_seen {k : List Char} :
    ∀ (l : List Item) (seen : List (List Char)),
      k ∈ keysInOrder seen l → k ∉ seen := by
  intro l
  induction l with
  | nil => intro seen h; cases h
  | cons i rest ih =>
    intro seen h
    rcases hk : keyOf i with _ | k'
    · simp only [keysInOrder, hk] at h
      exact ih seen h
    · simp only [keysInOrder, hk] at h
      by_cases hs : k' ∈ seen
      · rw [if_pos hs] at h
        exact ih seen h
      · rw [if_neg hs] at h
        rcases List.mem_cons.mp h with rfl | h
        · exact hs
        · intro hmem
          exact ih (k' :: seen) h (List.mem_cons_of_mem k' hmem)

/-- The key list of the bucket map has no duplicates. -/
theorem keysInOrder_nodup :
    ∀ (l : List Item) (seen : List (List Char)), (keysInOrder seen l).Nodup := by
  intro l
  induction l with
  | nil => intro seen; exact List.nodup_nil
  | cons i rest ih =>
    intro seen
    rcases hk : keyOf i with _ | k'
    · simp only [keysInOrder, hk]
      exact ih seen
    · simp only [keysInOrder, hk]
      by_cases hs : k' ∈ seen
      · rw [if_pos hs]
        exact ih seen
      · rw [if_neg hs]
        refine List.nodup_cons.mpr ⟨?_, ih (k' :: seen)⟩
        intro hmem
        exact keysInOrder_not_mem_seen rest (k' :: seen) hmem
          (List.mem_cons_self k' seen)

/-- A key emitted for `l` has a non-empty bucket in `l`. -/
theorem groupOf_ne_nil {k : List Char} {l : List Item}
    (h : k ∈ keysInOrder [] l) : groupOf k l ≠ [] := by
  rcases keysInOrder_exists_mem l [] h with ⟨i, hi, hik⟩
  intro hcontra
  have : i ∈ groupOf k l := mem_groupOf.mpr ⟨hi, hik⟩
  rw [hcontra] at this
  cases this

/-- Elements of the Stage-B output come from the input and carry a key. -/
theorem mem_stageB {x : Item} {l : List Item} (h : x ∈ stageB l) :
    x ∈ l ∧ ∃ k, keyOf x = some k ∧ k ∈ keysInOrder [] l := by
  unfold stageB at h
  rcases List.mem_filterMap.mp h with ⟨k, hk, hsurv⟩
  have hx := survivor_mem hsurv
  rcases mem_groupOf.mp hx with ⟨hxl, hxk⟩
  exact ⟨hxl, k, hxk, hk⟩

/-- Host-dedup output items come from the input and avoid the seen set. -/
theorem mem_dedupByHost {x : Item} :
    ∀ (l : List Item) (seen : List String),
      x ∈ dedupByHost seen l → x ∈ l ∧ x.host ∉ seen := by
  intro l
  induction l with
  | nil => intro seen h; cases h
  | cons i rest ih =>
    intro seen h
    rw [dedupByHost] at h
    by_cases hs : i.host ∈ seen
    · rw [if_pos hs] at h
      rcases ih seen h with ⟨h1, h2⟩
      exact ⟨List.mem_cons_of_mem i h1, h2⟩
    · rw [if_neg hs] at h
      rcases List.mem_cons.mp h with heq | h
      · rw [heq]
        exact ⟨List.mem_cons_self _ _, heq ▸ hs⟩
      · rcases ih (i.host :: seen) h with ⟨h1, h2⟩
        exact ⟨List.mem_cons_of_mem i h1,
          fun hmem => h2 (List.mem_cons_of_mem i.host hmem)⟩

/-- The hosts surviving host-dedup are pairwise distinct. -/
theorem dedupByHost_hosts_nodup :
    ∀ (l : List Item) (seen : List String),
      ((dedupByHost seen l).map Item.host).Nodup := by
  intro l
  induction l with
  | nil => intro seen; exact List.nodup_nil
  | cons i rest ih =>
    intro seen
    rw [dedupByHost]
    by_cases hs : i.host ∈ seen
    · rw [if_pos hs]
      exact ih seen
    · rw [if_neg hs]
      rw [List.map_cons]
      refine List.nodup_cons.mpr ⟨?_, ih (i.host :: seen)⟩
      intro hmem
      rcases List.mem_map.mp hmem with ⟨y, hy, hyh⟩
      exact (mem_dedupByHost rest (i.host :: seen) hy).2
        (hyh ▸ List.mem_cons_self i.host seen)

/-- Host-dedup is the identity on host-duplicate-free input disjoint from
the seen set. -/
theorem dedupByHost_id :
    ∀ (l : List Item) (seen : List String),
      (l.map Item.host).Nodup → (∀ x ∈ l, x.host ∉ seen) →
      dedupByHost seen l = l := by
  intro l
  induction l with
  | nil => intro seen _ _; rfl
  | cons i rest ih =>
    intro seen hnd hdisj
    rw [dedupByHost, if_neg (hdisj i (List.mem_cons_self i rest))]
    congr 1
    refine ih (i.host :: seen) (by simpa using hnd.of_cons) ?_
    intro x hx
    simp only [List.mem_cons, not_or]
    refine ⟨?_, hdisj x (List.mem_cons_of_mem i hx)⟩
    intro hcontra
    have : i.host ∈ rest.map Item.host :=
      List.mem_map.mpr ⟨x, hx, hcontra⟩
    rw [List.map_cons] at hnd
    exact (List.nodup_cons.mp hnd).1 this

/-- The Stage-A output has pairwise distinct hosts. -/
theorem stageA_hosts_nodup (all : List Item) :
    ((stageA all).map Item.host).Nodup :=
  dedupByHost_hosts_nodup _ []

/-- Congruence of `filterMap` under pointwise-equal functions. -/
theorem filterMap_congr_mem {α β : Type} {f g : α → Option β} :
    ∀ l : List α, (∀ a ∈ l, f a = g a) → l.filterMap f = l.filterMap g := by
  intro l
  induction l with
  | nil => intro _; rfl
  | cons a rest ih =>
    intro h
    rw [List.filterMap_cons, List.filterMap_cons,
      h a (List.mem_cons_self a rest), ih fun x hx => h x (List.mem_cons_of_mem a hx)]

/-- The keys of the Stage-B survivors are exactly the bucket keys, in
order. -/
theorem filterMap_survivor_keys (l : List Item) :
    ∀ ks : List (List Char), (∀ k ∈ ks, groupOf k l ≠ []) →
      (ks.filterMap fun k => survivor (groupOf k l)).map keyOf
        = ks.map some := by
  intro ks
  induction ks with
  | nil => intro _; rfl
  | cons k rest ih =>
    intro h
    rcases survivor_isSome (h k (List.mem_cons_self k rest)) with ⟨x, hx⟩
    rw [List.filterMap_cons, hx]
    have hkey : keyOf x = some k := (mem_groupOf.mp (survivor_mem hx)).2
    rw [List.map_cons, List.map_cons, hkey,
      ih fun k' hk' => h k' (List.mem_cons_of_mem k hk')]

/-- Stage B emits one survivor per bucket: its key list is the bucket key
list. -/
theorem stageB_map_keyOf (l : List Item) :
    (stageB l).map keyOf = (keysInOrder [] l).map some :=
  filterMap_survivor_keys l (keysInOrder [] l) fun _ hk => groupOf_ne_nil hk

/-- The Stage-B output of a host-duplicate-free list has pairwise distinct
hosts. -/
theorem stageB_hosts_nodup {l : List Item}
    (h : (l.map Item.host).Nodup) : ((stageB l).map Item.host).Nodup := by
  have hkeys : ((stageB l).map keyOf).Nodup := by
    rw [stageB_map_keyOf]
    exact (keysInOrder_nodup l []).map (Option.some_injective _)
  have hpair : (stageB l).Pairwise fun a b => keyOf a ≠ keyOf b :=
    List.pairwise_map.mp hkeys
  refine List.pairwise_map.mpr (hpair.imp_of_mem ?_)
  intro a b ha hb hk
  intro hcontra
  exact hk (congrArg keyOf
    (List.inj_on_of_nodup_map h (mem_stageB ha).1 (mem_stageB hb).1 hcontra))

/-- An item with at least three dot-separated IP parts gets a key. -/
theorem keyOf_isSome_iff (i : Item) :
    (∃ k, keyOf i = some k) ↔ 3 ≤ (splitDots i.ip.toList).length := by
  unfold keyOf
  by_cases h : 3 ≤ (splitDots i.ip.toList).length
  · simp [h]
  · simp [h]

/-- C10: every item in the output of `deduplicate_data` has an IP that
splits into at least three dot-separated parts; an item that survives the
host-dedup stage but whose IP has fewer than three parts is silently
dropped from the final output (the `except: continue` comment claiming
such items are kept notwithstanding). -/
theorem claim_C10_stageB_format_guard (all : List Item) :
    (∀ i ∈ deduplicate_data all, 3 ≤ (splitDots i.ip.toList).length)
    ∧ (∀ x ∈ stageA all, (splitDots x.ip.toList).length < 3 →
        stripSource x ∉ deduplicate_data all) := by
  constructor
  · intro i hi
    unfold deduplicate_data at hi
    rcases List.mem_map.mp hi with ⟨s, hs, rfl⟩
    rcases (mem_stageB hs).2 with ⟨k, hk, _⟩
    have : ∃ k, keyOf (stripSource s) = some k := ⟨k, by rw [keyOf_stripSource]; exact hk⟩
    exact (keyOf_isSome_iff (stripSource s)).mp this
  · intro x _ hlen hmem
    unfold deduplicate_data at hmem
    rcases List.mem_map.mp hmem with ⟨s, hs, heq⟩
    rcases (mem_stageB hs).2 with ⟨k, hk, _⟩
    have h1 : keyOf (stripSource s) = some k := by
      rw [keyOf_stripSource]; exact hk
    have h2 : keyOf (stripSource x) = none := by
      rw [keyOf_stripSource]
      unfold keyOf
      rw [if_neg (by omega)]
    rw [heq, h2] at h1
    cases h1

/-- Witness for C10: a fresh item whose IP is `"1.2"` survives Stage A but
vanishes from the output. -/
theorem claim_C10_witness :
    (∀ i ∈ deduplicate_data [⟨"1.2:80", "1.2", "80", some "fofa"⟩],
      3 ≤ (splitDots i.ip.toList).length)
    ∧ ((⟨"1.2:80", "1.2", "80", some "fofa"⟩ : Item)
          ∈ stageA [⟨"1.2:80", "1.2", "80", some "fofa"⟩]
        ∧ (splitDots ("1.2" : String).toList).length < 3
        ∧ stripSource ⟨"1.2:80", "1.2", "80", some "fofa"⟩
            ∉ deduplicate_data [⟨"1.2:80", "1.2", "80", some "fofa"⟩]) := by
  have h := claim_C10_stageB_format_guard [⟨"1.2:80", "1.2", "80", some "fofa"⟩]
  have hmem : (⟨"1.2:80", "1.2", "80", some "fofa"⟩ : Item)
      ∈ stageA [⟨"1.2:80", "1.2", "80", some "fofa"⟩] := by decide
  have hlen : (splitDots ("1.2" : String).toList).length < 3 := by decide
  exact ⟨h.1, hmem, hlen, h.2 _ hmem hlen⟩

/-- Keys of elements of the bucket-survivor list. -/
theorem mem_filterMap_survivor {l : List Item} {y : Item} :
    ∀ ks : List (List Char),
      y ∈ (ks.filterMap fun k' => survivor (groupOf k' l)) →
      ∃ k' ∈ ks, keyOf y = some k' := by
  intro ks hy
  rcases List.mem_filterMap.mp hy with ⟨k', hk', hsurv⟩
  exact ⟨k', hk', (mem_groupOf.mp (survivor_mem hsurv)).2⟩

/-- Filtering the bucket-survivor list by one key yields exactly that
bucket's survivor. -/
theorem filterMap_survivor_filter_key (l : List Item) :
    ∀ (ks : List (List Char)) (k : List Char) (s : Item),
      ks.Nodup → k ∈ ks → (∀ k' ∈ ks, groupOf k' l ≠ []) →
      survivor (groupOf k l) = some s →
      ((ks.filterMap fun k' => survivor (groupOf k' l)).filter
        fun i => keyOf i == some k) = [s] := by
  intro ks
  induction ks with
  | nil => intro k s _ hk _ _; cases hk
  | cons k' rest ih =>
    intro k s hnd hk hne hs
    rcases survivor_isSome (hne k' (List.mem_cons_self k' rest)) with ⟨x, hx⟩
    rw [List.filterMap_cons, hx, List.filter_cons]
    have hxkey : keyOf x = some k' := (mem_groupOf.mp (survivor_mem hx)).2
    rcases List.mem_cons.mp hk with rfl | hkrest
    · have hxs : x = s := Option.some_injective _ (hx ▸ hs)
      have hcond : (keyOf x == some k) = true := by
        rw [hxkey]
        exact beq_self_eq_true _
      rw [if_pos hcond, hxs]
      have hnilrest : ((rest.filterMap fun k'' => survivor (groupOf k'' l)).filter
          fun i => keyOf i == some k) = [] := by
        rw [List.filter_eq_nil_iff]
        intro y hy
        rcases mem_filterMap_survivor rest hy with ⟨k'', hk'', hykey⟩
        have : k'' ≠ k := fun hcontra =>
          (List.nodup_cons.mp hnd).1 (hcontra ▸ hk'')
        rw [hykey]
        simpa using this
      rw [hnilrest]
    · have hkne : k ≠ k' := fun hcontra =>
        (List.nodup_cons.mp hnd).1 (hcontra ▸ hkrest)
      have hcond : (keyOf x == some k) = false := by
        rw [hxkey]
        simpa using fun hcontra => hkne hcontra.symm
      rw [if_neg (by simp [hcond])]
      exact ih k s (List.nodup_cons.mp hnd).2 hkrest
        (fun k'' hk'' => hne k'' (List.mem_cons_of_mem k' hk'')) hs

/-- C6: for every bucket key of the Stage-A output, exactly one member of
that bucket appears in the final output of `deduplicate_data` (with its
`_source` marker removed): the first existing member if the bucket has one,
otherwise the first member encountered; all other members are discarded. -/
theorem claim_C6_subnet_collapse (all : List Item) (k : List Char)
    (hk : k ∈ keysInOrder [] (stageA all)) :
    ∃ s : Item,
      survivor (groupOf k (stageA all)) = some s
      ∧ (deduplicate_data all).filter (fun i => keyOf i == some k)
          = [stripSource s]
      ∧ (∀ (e : Item) (rest : List Item),
          (groupOf k (stageA all)).filter isExistingItem = e :: rest → s = e)
      ∧ ((groupOf k (stageA all)).filter isExistingItem = [] →
          (groupOf k (stageA all)).head? = some s) := by
  rcases survivor_isSome (groupOf_ne_nil hk) with ⟨s, hs⟩
  refine ⟨s, hs, ?_, ?_, ?_⟩
  · have hcore : ((stageB (stageA all)).filter fun i => keyOf i == some k) = [s] :=
      filterMap_survivor_filter_key (stageA all) (keysInOrder [] (stageA all))
        k s (keysInOrder_nodup _ []) hk (fun _ hk' => groupOf_ne_nil hk') hs
    unfold deduplicate_data
    rw [List.filter_map]
    have hcomp : ((fun i => keyOf i == some k) ∘ stripSource)
        = fun i => keyOf i == some k := by
      funext i
      rw [Function.comp_apply, keyOf_stripSource]
    rw [hcomp, hcore]
    rfl
  · intro e rest hfe
    exact Option.some_injective _ ((survivor_of_filter_cons hfe) ▸ hs).symm
  · intro hfnil
    rw [← survivor_of_filter_nil hfnil]
    exact hs

/-- Witness for C6: an existing and a fresh item share C-segment `1.2.3`
and port 80; the existing one is the survivor. -/
theorem claim_C6_witness :
    ∃ s : Item,
      survivor (groupOf ("1.2.3.x:80".toList)
          (stageA [⟨"1.2.3.4:80", "1.2.3.4", "80", some "fofa"⟩,
                   ⟨"1.2.3.9:80", "1.2.3.9", "80", some "existing"⟩])) = some s
      ∧ (deduplicate_data [⟨"1.2.3.4:80", "1.2.3.4", "80", some "fofa"⟩,
            ⟨"1.2.3.9:80", "1.2.3.9", "80", some "existing"⟩]).filter
          (fun i => keyOf i == some ("1.2.3.x:80".toList)) = [stripSource s]
      ∧ (∀ (e : Item) (rest : List Item),
          (groupOf ("1.2.3.x:80".toList)
              (stageA [⟨"1.2.3.4:80", "1.2.3.4", "80", some "fofa"⟩,
                ⟨"1.2.3.9:80", "1.2.3.9", "80", some "existing"⟩])).filter
              isExistingItem = e :: rest → s = e)
      ∧ ((groupOf ("1.2.3.x:80".toList)
            (stageA [⟨"1.2.3.4:80", "1.2.3.4", "80", some "fofa"⟩,
              ⟨"1.2.3.9:80", "1.2.3.9", "80", some "existing"⟩])).filter
            isExistingItem = [] →
          (groupOf ("1.2.3.x:80".toList)
            (stageA [⟨"1.2.3.4:80", "1.2.3.4", "80", some "fofa"⟩,
              ⟨"1.2.3.9:80", "1.2.3.9", "80", some "existing"⟩])).head?
            = some s) :=
  claim_C6_subnet_collapse
    [⟨"1.2.3.4:80", "1.2.3.4", "80", some "fofa"⟩,
     ⟨"1.2.3.9:80", "1.2.3.9", "80", some "existing"⟩]
    ("1.2.3.x:80".toList) (by decide)

/-- `keysInOrder` only depends on the membership of the seen set. -/
theorem keysInOrder_congr_seen :
    ∀ (l : List Item) (s1 s2 : List (List Char)),
      (∀ k, k ∈ s1 ↔ k ∈ s2) → keysInOrder s1 l = keysInOrder s2 l := by
  intro l
  induction l with
  | nil => intro s1 s2 _; rfl
  | cons i rest ih =>
    intro s1 s2 h
    rcases hk : keyOf i with _ | k'
    · simp only [keysInOrder, hk]
      exact ih s1 s2 h
    · simp only [keysInOrder, hk]
      by_cases hs : k' ∈ s1
      · rw [if_pos hs, if_pos ((h k').mp hs)]
        exact ih s1 s2 h
      · rw [if_neg hs, if_neg fun hc => hs ((h k').mpr hc)]
        rw [ih (k' :: s1) (k' :: s2) fun k => by simp [List.mem_cons, h k]]

/-- A key never carried by any input item is irrelevant as a seen key. -/
theorem keysInOrder_cons_irrelevant {k : List Char} :
    ∀ (l : List Item) (seen : List (List Char)),
      (∀ i ∈ l, keyOf i ≠ some k) →
      keysInOrder (k :: seen) l = keysInOrder seen l := by
  intro l
  induction l with
  | nil => intro _ _; rfl
  | cons i rest ih =>
    intro seen h
    have htail : ∀ j ∈ rest, keyOf j ≠ some k :=
      fun j hj => h j (List.mem_cons_of_mem i hj)
    rcases hk : keyOf i with _ | k'
    · simp only [keysInOrder, hk]
      exact ih seen htail
    · have hk'ne : k' ≠ k := by
        intro hc
        exact h i (List.mem_cons_self i rest) (by rw [hk, hc])
      simp only [keysInOrder, hk]
      by_cases hs : k' ∈ seen
      · rw [if_pos (List.mem_cons_of_mem k hs), if_pos hs]
        exact ih seen htail
      · have hnotin : k' ∉ k :: seen := by
          simp only [List.mem_cons, not_or]
          exact ⟨hk'ne, hs⟩
        rw [if_neg hnotin, if_neg hs]
        congr 1
        calc keysInOrder (k' :: k :: seen) rest
            = keysInOrder (k :: k' :: seen) rest :=
              keysInOrder_congr_seen rest _ _ (by intro x; simp; tauto)
          _ = keysInOrder (k' :: seen) rest := ih (k' :: seen) htail

/-- Stage B is the identity on a list whose items all carry pairwise
distinct keys. -/
theorem stageB_id :
    ∀ l : List Item, (∀ i ∈ l, ∃ k, keyOf i = some k) →
      (l.map keyOf).Nodup → stageB l = l := by
  intro l
  induction l with
  | nil => intro _ _; rfl
  | cons i rest ih =>
    intro hsome hnd
    rcases hsome i (List.mem_cons_self i rest) with ⟨k, hk⟩
    have hrestk : ∀ j ∈ rest, keyOf j ≠ some k := by
      intro j hj hc
      rw [List.map_cons] at hnd
      exact (List.nodup_cons.mp hnd).1
        (List.mem_map.mpr ⟨j, hj, by rw [hc, hk]⟩)
    have hgroup : groupOf k (i :: rest) = [i] := by
      unfold groupOf
      rw [List.filter_cons]
      have hcond : (keyOf i == some k) = true := by
        rw [hk]; exact beq_self_eq_true _
      rw [if_pos (by simp [hcond])]
      have : rest.filter (fun j => keyOf j == some k) = [] := by
        rw [List.filter_eq_nil_iff]
        intro j hj
        simpa using hrestk j hj
      rw [this]
    have hkeys : keysInOrder [] (i :: rest) = k :: keysInOrder [] rest := by
      simp only [keysInOrder, hk]
      rw [if_neg (List.not_mem_nil k)]
      rw [keysInOrder_cons_irrelevant rest [] hrestk]
    unfold stageB
    rw [hkeys, List.filterMap_cons, hgroup, survivor_singleton]
    show i :: ((keysInOrder [] rest).filterMap
        fun k' => survivor (groupOf k' (i :: rest))) = i :: rest
    congr 1
    have hcongr : ∀ k' ∈ keysInOrder [] rest,
        survivor (groupOf k' (i :: rest)) = survivor (groupOf k' rest) := by
      intro k' hk'
      have hk'ne : k' ≠ k := by
        rcases keysInOrder_exists_mem rest [] hk' with ⟨j, hj, hjk⟩
        intro hc
        exact hrestk j hj (by rw [hjk, hc])
      have : groupOf k' (i :: rest) = groupOf k' rest := by
        unfold groupOf
        rw [List.filter_cons]
        have hcond : (keyOf i == some k') = false := by
          rw [hk]
          simpa using fun hcontra => hk'ne hcontra.symm
        rw [if_neg (by simp [hcond])]
      rw [this]
    rw [filterMap_congr_mem (keysInOrder [] rest) hcongr]
    have : (keysInOrder [] rest).filterMap (fun k' => survivor (groupOf k' rest))
        = stageB rest := rfl
    rw [this]
    exact ih (fun j hj => hsome j (List.mem_cons_of_mem i hj))
      (by rw [List.map_cons] at hnd; exact (List.nodup_cons.mp hnd).2)

/-- Re-marking and stripping cancel to stripping. -/
theorem stripSource_markExisting :
    stripSource ∘ markExisting = stripSource := funext fun _ => rfl

/-- Stripping is idempotent. -/
theorem stripSource_stripSource :
    stripSource ∘ stripSource = stripSource := funext fun _ => rfl

/-- Re-marking keeps the host. -/
theorem host_markExisting : Item.host ∘ markExisting = Item.host :=
  funext fun _ => rfl

/-- Stripping keeps the host. -/
theorem host_stripSource : Item.host ∘ stripSource = Item.host :=
  funext fun _ => rfl

/-- Re-marking keeps the key. -/
theorem keyOf_comp_mark : keyOf ∘ markExisting = keyOf := funext fun _ => rfl

/-- Stripping keeps the key. -/
theorem keyOf_comp_strip : keyOf ∘ stripSource = keyOf := funext fun _ => rfl

/-- Stage A is the identity on an all-existing, host-duplicate-free list. -/
theorem stageA_all_existing (l : List Item)
    (hall : ∀ i ∈ l, isExistingItem i = true)
    (hnd : (l.map Item.host).Nodup) : stageA l = l := by
  unfold stageA
  rw [List.filter_eq_self.mpr hall]
  have h2 : l.filter (fun i => !isExistingItem i) = [] := by
    rw [List.filter_eq_nil_iff]
    intro i hi
    simp [hall i hi]
  rw [h2, List.append_nil]
  exact dedupByHost_id l [] hnd fun x _ => List.not_mem_nil _

/-- `deduplicate_data` is the identity on an all-existing list with
pairwise-distinct hosts and pairwise-distinct present keys, up to removing
the `_source` markers. -/
theorem deduplicate_data_id (l : List Item)
    (hall : ∀ i ∈ l, isExistingItem i = true)
    (hnd : (l.map Item.host).Nodup)
    (hsome : ∀ i ∈ l, ∃ k, keyOf i = some k)
    (hkeys : (l.map keyOf).Nodup) :
    deduplicate_data l = l.map stripSource := by
  unfold deduplicate_data
  rw [stageA_all_existing l hall hnd, stageB_id l hsome hkeys]

/-- C7: the two-stage deduplication is idempotent — re-running it on its own
output (read back as existing data, with an empty fresh set) returns the
same list. -/
theorem claim_C7_dedup_idempotence (E F : List Item) :
    Dedupe (Dedupe E F) [] = Dedupe E F := by
  have hA : ((stageA (E.map markExisting ++ F)).map Item.host).Nodup :=
    stageA_hosts_nodup (E.map markExisting ++ F)
  have hD : Dedupe E F
      = (stageB (stageA (E.map markExisting ++ F))).map stripSource := rfl
  have hDkeys : (Dedupe E F).map keyOf
      = (keysInOrder [] (stageA (E.map markExisting ++ F))).map some := by
    rw [hD, List.map_map, keyOf_comp_strip, stageB_map_keyOf]
  have hDhost : (Dedupe E F).map Item.host
      = (stageB (stageA (E.map markExisting ++ F))).map Item.host := by
    rw [hD, List.map_map, host_stripSource]
  have hmark : Dedupe (Dedupe E F) []
      = deduplicate_data ((Dedupe E F).map markExisting) := by
    unfold Dedupe
    rw [List.append_nil]
  rw [hmark]
  have hall : ∀ i ∈ (Dedupe E F).map markExisting, isExistingItem i = true := by
    intro i hi
    rcases List.mem_map.mp hi with ⟨j, _, rfl⟩
    rfl
  have hhost : (((Dedupe E F).map markExisting).map Item.host).Nodup := by
    rw [List.map_map, host_markExisting, hDhost]
    exact stageB_hosts_nodup hA
  have hmarkkeys : ((Dedupe E F).map markExisting).map keyOf
      = (keysInOrder [] (stageA (E.map markExisting ++ F))).map some := by
    rw [List.map_map, keyOf_comp_mark, hDkeys]
  have hsome : ∀ i ∈ (Dedupe E F).map markExisting, ∃ k, keyOf i = some k := by
    intro i hi
    have hmem : keyOf i ∈ ((Dedupe E F).map markExisting).map keyOf :=
      List.mem_map_of_mem keyOf hi
    rw [hmarkkeys] at hmem
    rcases List.mem_map.mp hmem with ⟨k, _, hk⟩
    exact ⟨k, hk.symm⟩
  have hkeysnd : (((Dedupe E F).map markExisting).map keyOf).Nodup := by
    rw [hmarkkeys]
    exact (keysInOrder_nodup _ []).map (Option.some_injective _)
  rw [deduplicate_data_id _ hall hhost hsome hkeysnd]
  rw [List.map_map, stripSource_markExisting, hD, List.map_map,
    stripSource_stripSource]

/-- Witness-style check of C7 at a concrete instance (the theorem itself is
unconditional; this instantiates it on a one-element existing set and a
two-element fresh set). -/
theorem claim_C7_witness :
    Dedupe (Dedupe [⟨"1.2.3.9:80", "1.2.3.9", "80", none⟩]
        [⟨"1.2.3.4:80", "1.2.3.4", "80", some "fofa"⟩,
         ⟨"7.8.9.1:80", "7.8.9.1", "80", some "fofa"⟩]) []
      = Dedupe [⟨"1.2.3.9:80", "1.2.3.9", "80", none⟩]
        [⟨"1.2.3.4:80", "1.2.3.4", "80", some "fofa"⟩,
         ⟨"7.8.9.1:80", "7.8.9.1", "80", some "fofa"⟩] :=
  claim_C7_dedup_idempotence _ _
